import Mathlib

/-!
Verification of the dataset-assembly and scoring components of the
blockchain-predictor repository.

The development shallowly embeds `src/dataset_generator.py` and the scoring
functions of `src/neural/neural_network.py`.  Python floats are modelled as
exact rationals; a Python exception that escapes a function (ZeroDivisionError,
an uncaught IndexError, unpacking `None`) is modelled by `Option.none`.
-/

namespace BlockchainPredictor

/-- A row of a property series loaded from the chunk store: a date (timestamp)
together with the value of the property at that date.  For the label series
the property is the close price, hence the field name used by
`generateLabels`. -/
structure Tick where
  date : Int
  closePrice : ℚ
deriving DecidableEq, Repr

/-! ## Scoring functions (`src/neural/neural_network.py`)

Each Python loop `for i in range(len(labels))` reads `prediction[i]`; an
out-of-range access raises an uncaught IndexError, modelled as `none`.
A division whose divisor is zero raises ZeroDivisionError, also `none`. -/

/-- Loop of `NeuralNetwork.sign_accuracy`: counts the positions where both the
label and the prediction fall on the same side of the 0.5 threshold. -/
def signCount : List ℚ → List ℚ → Option ℚ
  | [], _ => some 0
  | _ :: _, [] => none
  | l :: ls, p :: ps =>
    (signCount ls ps).map fun c =>
      c + (if (1/2 ≤ l ∧ 1/2 ≤ p) ∨ (l < 1/2 ∧ p < 1/2) then 1 else 0)

/-- `NeuralNetwork.sign_accuracy`: the same-side count divided by the length
of `labels` (ZeroDivisionError on an empty input). -/
def sign_accuracy (labels prediction : List ℚ) : Option ℚ :=
  (signCount labels prediction).bind fun c =>
    if labels.length = 0 then none else some (c / labels.length)

/-- Loop of `NeuralNetwork.custom_accuracy`: accumulates
`|label - prediction| / min(prediction, label)` over the positions where the
minimum is nonzero; positions with a zero minimum add nothing. -/
def customTotal : List ℚ → List ℚ → Option ℚ
  | [], _ => some 0
  | _ :: _, [] => none
  | l :: ls, p :: ps =>
    (customTotal ls ps).map fun t =>
      t + (if min p l ≠ 0 then |l - p| / min p l else 0)

/-- `NeuralNetwork.custom_accuracy`: the accumulated total divided by the full
length of `labels` (ZeroDivisionError on an empty input). -/
def custom_accuracy (labels prediction : List ℚ) : Option ℚ :=
  (customTotal labels prediction).bind fun t =>
    if labels.length = 0 then none else some (t / labels.length)

/-- Loop of `NeuralNetwork.R2`: accumulates the sum of squared errors and the
null-model sum of squared deviations from the constant 0.5 baseline. -/
def R2sums : List ℚ → List ℚ → Option (ℚ × ℚ)
  | [], _ => some (0, 0)
  | _ :: _, [] => none
  | l :: ls, p :: ps =>
    (R2sums ls ps).map fun s =>
      (s.1 + (l - p)^2, s.2 + (1/2 - l)^2)

/-- `NeuralNetwork.R2`: `1 - sumOfErrors / nullModel` with the constant 0.5
baseline as the null model (ZeroDivisionError when the null-model sum is
zero). -/
def R2 (labels prediction : List ℚ) : Option ℚ :=
  (R2sums labels prediction).bind fun s =>
    if s.2 = 0 then none else some (1 - s.1 / s.2)

/-! ## Label generation (`generateLabels`, src/dataset_generator.py lines 77-111) -/

/-- The cursor-advance loop `while ticks.get_value(indices[i], 'date') != date:
i += 1`, restricted to the suffix of the series from the cursor on: the offset
of the first entry of the suffix whose date is exactly `date`, or `none` when
the date is absent from the suffix (the loop then indexes past the end of the
series and raises an uncaught IndexError). -/
def findFrom : List Tick → Int → Option Nat
  | [], _ => none
  | t :: ts, date => if t.date = date then some 0 else (findFrom ts date).map (· + 1)

/-- The absolute position the cursor loop stops at when started at `i`. -/
def advanceCursor (ticks : List Tick) (date : Int) (i : Nat) : Option Nat :=
  (findFrom (ticks.drop i) date).map (i + ·)

/-- The per-date loop of `generateLabels` in boolean mode.  For each date the
cursor advances to the matching entry (an uncaught IndexError — `none` — when
the date is absent from the rest of the series), then the current and the
positionally next close price are read inside `try`; a missing successor is
caught and ends the loop with the labels accumulated so far.  `acc` holds the
one-column label rows already produced; the cursor is NOT advanced past the
matched entry between iterations. -/
def genLabelsLoop (ticks : List Tick) :
    List Int → Nat → List (List Bool) → Option (List (List Bool))
  | [], _, acc => some acc
  | date :: rest, i, acc =>
    match advanceCursor ticks date i with
    | none => none
    | some j =>
      match ticks[j]?, ticks[j+1]? with
      | some curr, some nxt =>
        genLabelsLoop ticks rest j (acc ++ [[decide (curr.closePrice < nxt.closePrice)]])
      | some _, none => some acc
      | none, _ => none

/-- The labels produced by `generateLabels`: one-column boolean rows in
boolean mode, the model's auxiliary targets in full mode. -/
inductive LabelData (β : Type) where
  | bools : List (List Bool) → LabelData β
  | full : List β → LabelData β
deriving DecidableEq

/-- The number of labels in a `LabelData`. -/
def LabelData.card {β : Type} : LabelData β → Nat
  | .bools ls => ls.length
  | .full ls => ls.length

/-- `generateLabels(dates, nextPrices, ticks, labelsType)` (lines 77-111).
In boolean mode the accumulated label rows are paired with
`dates[:len(labels)]` (when labeling runs to completion this equals the full
`dates`, one label having been produced per date).  In full mode the
auxiliary next prices pass through unchanged.  Any other mode falls off the
function, returning Python `None`, which the caller's tuple unpacking turns
into an uncaught error. -/
def generateLabels {β : Type} (dates : List Int) (nextPrices : List β)
    (ticks : List Tick) (labelsType : String) : Option (LabelData β × List Int) :=
  if labelsType = "boolean" then
    (genLabelsLoop ticks dates 0 []).map fun labels =>
      (.bools labels, dates.take labels.length)
  else if labelsType = "full" then
    some (.full nextPrices, dates)
  else none

/-! ## Dataset assembly (`generateDataset`, src/dataset_generator.py lines 33-75) -/

/-- A dataset model of the registry: a name together with the pluggable
`generate` transformation from the loaded property series to
(feature matrices, dates, auxiliary next prices).  The concrete matrix and
stacked models are external plug-ins; the registry scan only consults the
name. -/
structure DatasetModel (α β : Type) where
  name : String
  generate : List (List Tick) → List α × List Int × List β

/-- The model-selection scan of `generateDataset` (lines 36-41):
`model = None; for mod in models: if mod.name == modelName: model = mod`. -/
def selectModel {α β : Type} (models : List (DatasetModel α β))
    (modelName : String) : Option (DatasetModel α β) :=
  models.foldl (fun acc mod => if mod.name = modelName then some mod else acc) none

/-- Modelled from the spec: `database_tools.loadData(chunkStore, key, start,
end, dense)` — the storage engine is not part of the sources — returns the
date-ordered series of the property over the requested closed-open interval:
the entries with `start ≤ date`, and `date < end` when an end bound is given;
an absent end bound leaves the series unbounded above. -/
def loadData (series : List Tick) (start : Int) (stop : Option Int) : List Tick :=
  series.filter fun t =>
    decide (start ≤ t.date) &&
      (match stop with
       | none => true
       | some e => decide (t.date < e))

/-- Modelled from the spec: `database_tools.getMasterInterval` — also part of
the external storage engine — clips the requested `[start, end)` to the
master interval, the intersection of the availability ranges of the requested
properties: the latest first date and the earliest past-the-end date among
them. -/
def getMasterInterval (store : String → List Tick) (props : List String)
    (start stop : Int) : Int × Int :=
  (props.foldl (fun s p => max s (((store p).head?.map Tick.date).getD s)) start,
   props.foldl (fun e p => min e ((((store p).getLast?).map fun t => t.date + 1).getD e)) stop)

/-- The property whose series supplies the boolean labels (line 31). -/
def labelKey : String := "closePrice"

/-- The alignment check of `generateDataset` (lines 61-64): every loaded
property series must have the length of the first, else the run aborts. -/
def alignOk (properties : List (List Tick)) : Bool :=
  match properties with
  | [] => true
  | p0 :: _ => properties.all fun p => p.length == p0.length

/-- The body of `generateDataset` after model selection (lines 47-75): check
the alignment of the loaded properties (early `return` — `none` — on a
mismatch), run the model, attach labels over the given label series, and
truncate the feature list to the number of labels
(`dataset = dataset[:len(labels)]`, a no-op when the lengths already agree).
An uncaught exception from labeling propagates (`none`).  The Arctic decode
workaround (lines 56-58) only reverses a storage encoding and is the
identity here, where values are already rationals. -/
def assembleWithModel {α β : Type} (model : DatasetModel α β)
    (properties : List (List Tick)) (ticks : List Tick) (labelsType : String) :
    Option (List α × LabelData β × List Int) :=
  if alignOk properties then
    (generateLabels (model.generate properties).2.1
        (model.generate properties).2.2 ticks labelsType).map fun ld =>
      ((model.generate properties).1.take ld.1.card, ld.1, ld.2)
  else none

/-- `generateDataset(modelName, propertyNames, labelsType, start, end)`
(lines 33-75): the registry scan (an early `return` without a value when the
name is unknown, hence `bind`), the master-interval clipping, the property
loading over the clipped closed-open interval, and the assembly above — with
the label series loaded from the clipped start and NO end bound (line 69
passes `None`). -/
def generateDataset {α β : Type} (models : List (DatasetModel α β))
    (modelName : String) (propertyNames : List String) (labelsType : String)
    (store : String → List Tick) (start stop : Int) :
    Option (List α × LabelData β × List Int) :=
  (selectModel models modelName).bind fun model =>
    let iv := getMasterInterval store propertyNames start stop
    assembleWithModel model
      (propertyNames.map fun p => loadData (store p) iv.1 (some iv.2))
      (loadData (store labelKey) iv.1 none) labelsType

/-! ## Shuffling and splitting (`randomizeDataset` and `run`,
src/dataset_generator.py lines 113-118 and 129-174) -/

/-- `randomizeDataset` (lines 113-118): `np.random.permutation(N)` supplies
one permutation of the index range `[0, N)` — here a parameter — and the same
permutation array fancy-indexes all three containers. -/
def randomizeDataset {α β γ : Type} (permutation : List Nat) (dataset : List α)
    (labels : List β) (dates : List γ) : List α × List β × List γ :=
  (permutation.filterMap fun j => dataset[j]?,
   permutation.filterMap fun j => labels[j]?,
   permutation.filterMap fun j => dates[j]?)

/-- The split sizes of `run` (lines 158-160):
`int(weight * len(dataset) / sum(weights))` for every weight. -/
def splitSizes (weights : List Nat) (n : Nat) : List Nat :=
  weights.map fun w => w * n / weights.sum

/-- The fragment slices of `run` (lines 164-174): each fragment takes the next
`spl` elements of the three containers (`[index : index + spl]`), except the
last, which takes everything remaining (`end = None`). -/
def makeFragments {α β γ : Type} (dataset : List α) (labels : List β)
    (dates : List γ) : List Nat → Nat → List (List α × List β × List γ)
  | [], _ => []
  | [_], index => [(dataset.drop index, labels.drop index, dates.drop index)]
  | spl :: s2 :: rest, index =>
    ((dataset.drop index).take spl, (labels.drop index).take spl,
      (dates.drop index).take spl) ::
      makeFragments dataset labels dates (s2 :: rest) (index + spl)

/-- The result of `run` before persistence: a single dataset dictionary for a
one-element ratio, otherwise the ordered list of fragments. -/
inductive SplitData (α β γ : Type) where
  | single : List α → List β → List γ → SplitData α β γ
  | multi : List (List α × List β × List γ) → SplitData α β γ

/-- The ratio split of `run` (lines 149-174). -/
def runSplit {α β γ : Type} (weights : List Nat) (dataset : List α)
    (labels : List β) (dates : List γ) : SplitData α β γ :=
  if weights.length = 1 then SplitData.single dataset labels dates
  else SplitData.multi
    (makeFragments dataset labels dates (splitSizes weights dataset.length) 0)

/-- A registry entry for the duplicate-name scan analysis, over trivial
feature and label types. -/
def dupModelA : DatasetModel Unit Unit :=
  ⟨"m", fun _ => ([], [], [])⟩

/-- A second registry entry with the same name but different behaviour. -/
def dupModelB : DatasetModel Unit Unit :=
  ⟨"m", fun _ => ([], [5], [])⟩

/-! ### Helper lemmas for the scoring functions -/

theorem signCount_isSome (labels prediction : List ℚ)
    (hlen : labels.length = prediction.length) :
    (signCount labels prediction).isSome := by
  induction labels generalizing prediction with
  | nil => simp [signCount]
  | cons l ls ih =>
    cases prediction with
    | nil => simp at hlen
    | cons p ps =>
      simp only [List.length_cons, Nat.succ.injEq] at hlen
      have := ih ps hlen
      cases h : signCount ls ps with
      | none => rw [h] at this; simp at this
      | some c => simp [signCount, h]

theorem customTotal_eq (labels prediction : List ℚ)
    (hlen : labels.length = prediction.length) :
    customTotal labels prediction =
      some (((labels.zip prediction).map fun lp =>
        if min lp.1 lp.2 ≠ 0 then |lp.1 - lp.2| / min lp.1 lp.2 else 0).sum) := by
  induction labels generalizing prediction with
  | nil => simp [customTotal]
  | cons l ls ih =>
    cases prediction with
    | nil => simp at hlen
    | cons p ps =>
      simp only [List.length_cons, Nat.succ.injEq] at hlen
      rw [customTotal, ih ps hlen]
      simp [min_comm p l, add_comm]

theorem R2sums_eq (labels prediction : List ℚ)
    (hlen : labels.length = prediction.length) :
    R2sums labels prediction =
      some (((labels.zip prediction).map fun lp => (lp.1 - lp.2)^2).sum,
            (labels.map fun l => (1/2 - l)^2).sum) := by
  induction labels generalizing prediction with
  | nil => simp [R2sums]
  | cons l ls ih =>
    cases prediction with
    | nil => simp at hlen
    | cons p ps =>
      simp only [List.length_cons, Nat.succ.injEq] at hlen
      rw [R2sums, ih ps hlen]
      simp [add_comm]

theorem sum_sq_half_eq_zero_iff (labels : List ℚ) :
    (labels.map fun l => (1/2 - l)^2).sum = 0 ↔ ∀ l ∈ labels, l = 1/2 := by
  induction labels with
  | nil => simp
  | cons l ls ih =>
    simp only [List.map_cons, List.sum_cons, List.mem_cons]
    constructor
    · intro h
      have h1 : (0:ℚ) ≤ (1/2 - l)^2 := sq_nonneg _
      have h2 : (0:ℚ) ≤ (ls.map fun l => (1/2 - l)^2).sum := by
        apply List.sum_nonneg
        intro x hx
        simp only [List.mem_map] at hx
        obtain ⟨y, _, hy⟩ := hx
        rw [← hy]; exact sq_nonneg _
      have hz1 : (1/2 - l)^2 = 0 := by linarith
      have hz2 : (ls.map fun l => (1/2 - l)^2).sum = 0 := by linarith
      have : (1/2 : ℚ) - l = 0 := by
        exact pow_eq_zero_iff (two_ne_zero) |>.mp hz1
      intro x hx
      rcases hx with rfl | hx
      · linarith
      · exact (ih.mp hz2) _ hx
    · intro h
      have hl : l = 1/2 := h l (Or.inl rfl)
      have : ∀ x ∈ ls, x = 1/2 := fun x hx => h x (Or.inr hx)
      rw [hl, ih.mpr this]
      norm_num

/-! ### Claims C6, C7, C10 -/

/-- C6: `R2(labels, predictions)` equals
`1 - Σ (label - prediction)² / Σ (0.5 - label)²` — a constant 0.5 baseline as
the null model, not the mean of the labels — and when every label equals 0.5
the null-model sum is zero and the computation hits the zero-division
degenerate case instead of any mean-baseline fallback. -/
theorem R2_const_half_baseline (labels prediction : List ℚ)
    (hlen : labels.length = prediction.length) :
    R2 labels prediction =
      (if (labels.map fun l => (1/2 - l)^2).sum = 0 then none
       else some (1 - ((labels.zip prediction).map fun lp => (lp.1 - lp.2)^2).sum
                      / (labels.map fun l => (1/2 - l)^2).sum)) ∧
    ((labels.map fun l => (1/2 - l)^2).sum = 0 ↔ ∀ l ∈ labels, l = 1/2) := by
  constructor
  · rw [R2, R2sums_eq labels prediction hlen]
    simp only [Option.some_bind]
  · exact sum_sq_half_eq_zero_iff labels

/-- Witness for C6 at a concrete input. -/
theorem R2_const_half_baseline_witness :
    ([(1:ℚ), 0].length = [(0:ℚ), 1].length) ∧
    (R2 [(1:ℚ), 0] [(0:ℚ), 1] =
      (if (([(1:ℚ), 0]).map fun l => (1/2 - l)^2).sum = 0 then none
       else some (1 - ((([(1:ℚ), 0]).zip [(0:ℚ), 1]).map fun lp => (lp.1 - lp.2)^2).sum
                      / (([(1:ℚ), 0]).map fun l => (1/2 - l)^2).sum)) ∧
     ((([(1:ℚ), 0]).map fun l => (1/2 - l)^2).sum = 0 ↔ ∀ l ∈ [(1:ℚ), 0], l = 1/2)) :=
  ⟨by decide, R2_const_half_baseline [1, 0] [0, 1] (by decide)⟩

/-- C7: `custom_accuracy(labels, predictions)` equals the sum, over positions
whose minimum is nonzero, of `|label - prediction| / min(label, prediction)`,
divided by the full vector length (zero-minimum positions contribute nothing
to the numerator yet count in the denominator). -/
theorem custom_accuracy_full_length_divisor (labels prediction : List ℚ)
    (hlen : labels.length = prediction.length) (hne : labels ≠ []) :
    custom_accuracy labels prediction =
      some (((labels.zip prediction).map fun lp =>
        if min lp.1 lp.2 ≠ 0 then |lp.1 - lp.2| / min lp.1 lp.2 else 0).sum
        / labels.length) := by
  rw [custom_accuracy, customTotal_eq labels prediction hlen]
  simp only [Option.some_bind]
  rw [if_neg]
  simpa using hne

/-- Witness for C7 at a concrete input with a zero minimum at one position. -/
theorem custom_accuracy_full_length_divisor_witness :
    ([(1:ℚ), 0].length = [(2:ℚ), 3].length) ∧ ([(1:ℚ), 0] ≠ []) ∧
    custom_accuracy [(1:ℚ), 0] [(2:ℚ), 3] =
      some (((([(1:ℚ), 0]).zip [(2:ℚ), 3]).map fun lp =>
        if min lp.1 lp.2 ≠ 0 then |lp.1 - lp.2| / min lp.1 lp.2 else 0).sum
        / ([(1:ℚ), 0]).length) :=
  ⟨by decide, by decide,
    custom_accuracy_full_length_divisor [1, 0] [2, 3] (by decide) (by decide)⟩

/-- C10: under the equal-length precondition, `sign_accuracy` and
`custom_accuracy` are defined (return a value) exactly when the input vectors
are non-empty; on empty inputs the unconditional division by the length
reaches the zero-division case. -/
theorem accuracy_defined_iff_nonempty (labels prediction : List ℚ)
    (hlen : labels.length = prediction.length) :
    ((sign_accuracy labels prediction).isSome ↔ labels ≠ []) ∧
    ((custom_accuracy labels prediction).isSome ↔ labels ≠ []) := by
  constructor
  · rw [sign_accuracy]
    cases h : signCount labels prediction with
    | none =>
      have := signCount_isSome labels prediction hlen
      rw [h] at this; simp at this
    | some c =>
      simp only [Option.some_bind]
      by_cases hl : labels = []
      · subst hl; simp
      · rw [if_neg (by simpa using hl)]
        simpa using hl
  · rw [custom_accuracy, customTotal_eq labels prediction hlen]
    simp only [Option.some_bind]
    by_cases hl : labels = []
    · subst hl; simp
    · rw [if_neg (by simpa using hl)]
      simpa using hl

/-- Witness for C10 at concrete inputs. -/
theorem accuracy_defined_iff_nonempty_witness :
    ([(1:ℚ), 2].length = [(3:ℚ), 4].length) ∧
    (((sign_accuracy [(1:ℚ), 2] [(3:ℚ), 4]).isSome ↔ [(1:ℚ), 2] ≠ []) ∧
     ((custom_accuracy [(1:ℚ), 2] [(3:ℚ), 4]).isSome ↔ [(1:ℚ), 2] ≠ [])) :=
  ⟨by decide, accuracy_defined_iff_nonempty [1, 2] [3, 4] (by decide)⟩

/-! ### Helper lemmas for label generation -/

theorem findFrom_found (date : Int) :
    ∀ (ts : List Tick) (k : Nat), findFrom ts date = some k →
      ∃ t, ts[k]? = some t ∧ t.date = date := by
  intro ts
  induction ts with
  | nil => intro k h; simp [findFrom] at h
  | cons t ts ih =>
    intro k h
    rw [findFrom] at h
    by_cases hd : t.date = date
    · rw [if_pos hd] at h
      injection h with h
      subst h
      exact ⟨t, by simp, hd⟩
    · rw [if_neg hd] at h
      cases hf : findFrom ts date with
      | none => rw [hf] at h; simp at h
      | some k0 =>
        rw [hf, Option.map_some'] at h
        injection h with h
        obtain ⟨t0, ht0, ht0d⟩ := ih k0 hf
        subst h
        exact ⟨t0, by simpa using ht0, ht0d⟩

theorem advanceCursor_found (ticks : List Tick) (date : Int) (i j : Nat)
    (h : advanceCursor ticks date i = some j) :
    ∃ t, ticks[j]? = some t ∧ t.date = date := by
  rw [advanceCursor] at h
  cases hf : findFrom (ticks.drop i) date with
  | none => rw [hf] at h; simp at h
  | some k =>
    rw [hf, Option.map_some'] at h
    injection h with h
    obtain ⟨t, ht, htd⟩ := findFrom_found date (ticks.drop i) k hf
    rw [List.getElem?_drop] at ht
    exact ⟨t, h ▸ ht, htd⟩

theorem genLabelsLoop_spec (ticks : List Tick) :
    ∀ (dates : List Int) (i : Nat) (acc L : List (List Bool)),
      genLabelsLoop ticks dates i acc = some L →
      ∃ S : List (List Bool), L = acc ++ S ∧ S.length ≤ dates.length ∧
        ∀ k, k < S.length →
          ∃ curr nxt j, ticks[j]? = some curr ∧ ticks[j+1]? = some nxt ∧
            dates[k]? = some curr.date ∧
            S[k]? = some [decide (curr.closePrice < nxt.closePrice)] := by
  intro dates
  induction dates with
  | nil =>
    intro i acc L h
    rw [genLabelsLoop] at h
    injection h with h
    exact ⟨[], by simp [h.symm], by simp, fun k hk => absurd hk (by simp)⟩
  | cons date rest ih =>
    intro i acc L h
    cases hadv : advanceCursor ticks date i with
    | none => simp [genLabelsLoop, hadv] at h
    | some j =>
      obtain ⟨curr, hcurr, hcdate⟩ := advanceCursor_found ticks date i j hadv
      cases hnext : ticks[j+1]? with
      | none =>
        have hacc : acc = L := by simpa [genLabelsLoop, hadv, hcurr, hnext] using h
        exact ⟨[], by simp [hacc], by simp, fun k hk => absurd hk (by simp)⟩
      | some nxt =>
        have h2 : genLabelsLoop ticks rest j
            (acc ++ [[decide (curr.closePrice < nxt.closePrice)]]) = some L := by
          simpa [genLabelsLoop, hadv, hcurr, hnext] using h
        obtain ⟨S2, hL, hlen, hprop⟩ :=
          ih j (acc ++ [[decide (curr.closePrice < nxt.closePrice)]]) L h2
        refine ⟨[decide (curr.closePrice < nxt.closePrice)] :: S2, ?_, ?_, ?_⟩
        · rw [hL]; simp
        · simp only [List.length_cons, List.length_cons]
          omega
        · intro k hk
          cases k with
          | zero =>
            exact ⟨curr, nxt, j, hcurr, hnext, by simp [hcdate], by simp⟩
          | succ k0 =>
            obtain ⟨c, n, j0, hc, hn, hd0, hS⟩ :=
              hprop k0 (by simp only [List.length_cons] at hk; omega)
            exact ⟨c, n, j0, hc, hn, by simpa using hd0, by simpa using hS⟩

theorem generateLabels_cases {β : Type} (dates : List Int) (nextPrices : List β)
    (ticks : List Tick) (labelsType : String) (ld : LabelData β)
    (dates2 : List Int)
    (h : generateLabels dates nextPrices ticks labelsType = some (ld, dates2)) :
    (∃ L, ld = .bools L ∧ dates2 = dates.take L.length ∧ L.length ≤ dates.length) ∨
    (labelsType = "full" ∧ ld = .full nextPrices ∧ dates2 = dates) := by
  rw [generateLabels] at h
  by_cases hb : labelsType = "boolean"
  · rw [if_pos hb] at h
    cases hloop : genLabelsLoop ticks dates 0 [] with
    | none => rw [hloop] at h; simp at h
    | some L =>
      rw [hloop, Option.map_some'] at h
      injection h with h
      obtain ⟨S, hLS, hlen, _⟩ := genLabelsLoop_spec ticks dates 0 [] L hloop
      simp only [List.nil_append] at hLS
      left
      exact ⟨L, congrArg Prod.fst h.symm, (congrArg Prod.snd h).symm,
        by rw [hLS]; exact hlen⟩
  · rw [if_neg hb] at h
    by_cases hf : labelsType = "full"
    · rw [if_pos hf] at h
      injection h with h
      right
      exact ⟨hf, congrArg Prod.fst h.symm, (congrArg Prod.snd h).symm⟩
    · rw [if_neg hf] at h
      exact absurd h (by simp)

/-! ### Claims C2 and C3 -/

/-- C2: in boolean mode, every produced label comes from the price-series
entry whose date is exactly the corresponding input date together with its
positional successor in the same series, and the label is true exactly when
the successor's price is strictly greater than the current price (false on
equality or decrease). -/
theorem generateLabels_boolean_sound {β : Type} (dates : List Int)
    (nextPrices : List β) (ticks : List Tick) (labels : List (List Bool))
    (dates2 : List Int)
    (h : generateLabels dates nextPrices ticks "boolean" =
      some (.bools labels, dates2)) :
    ∀ k, k < labels.length →
      ∃ curr nxt j, ticks[j]? = some curr ∧ ticks[j+1]? = some nxt ∧
        dates[k]? = some curr.date ∧
        labels[k]? = some [decide (curr.closePrice < nxt.closePrice)] := by
  rw [generateLabels, if_pos rfl] at h
  cases hloop : genLabelsLoop ticks dates 0 [] with
  | none => rw [hloop] at h; simp at h
  | some L =>
    rw [hloop, Option.map_some'] at h
    injection h with h
    have hL : L = labels := by
      have := congrArg Prod.fst h
      simpa using this
    subst hL
    obtain ⟨S, hLS, _, hprop⟩ := genLabelsLoop_spec ticks dates 0 [] L hloop
    simp only [List.nil_append] at hLS
    subst hLS
    exact hprop

/-- Witness for C2: dates [1, 2] against the series
[(1, 10), (2, 12), (3, 11)]; the first label is true (12 > 10). -/
theorem generateLabels_boolean_sound_witness :
    (generateLabels [(1 : Int), 2] ([] : List ℚ)
        [⟨1, 10⟩, ⟨2, 12⟩, ⟨3, 11⟩] "boolean" =
      some (.bools [[true], [false]], [1, 2])) ∧
    (0 < [[true], [false]].length) ∧
    (∃ curr nxt j,
      ([⟨1, 10⟩, ⟨2, 12⟩, ⟨3, 11⟩] : List Tick)[j]? = some curr ∧
      ([⟨1, 10⟩, ⟨2, 12⟩, ⟨3, 11⟩] : List Tick)[j+1]? = some nxt ∧
      [(1 : Int), 2][0]? = some curr.date ∧
      [[true], [false]][0]? = some [decide (curr.closePrice < nxt.closePrice)]) :=
  ⟨by decide, by decide,
    generateLabels_boolean_sound [(1 : Int), 2] ([] : List ℚ)
      [⟨1, 10⟩, ⟨2, 12⟩, ⟨3, 11⟩] [[true], [false]] [1, 2] (by decide)
      0 (by decide)⟩

/-- C3 counterexample: the date 5 never appears in the single-entry price
series [(0, 1)], yet boolean labeling does not return the accumulated
labels with truncated dates — the cursor loop runs off the end of the series
and the uncaught IndexError aborts the whole run (`none`). -/
theorem generateLabels_missing_date_raises :
    generateLabels [(5 : Int)] ([] : List ℚ) [⟨0, 1⟩] "boolean" = none := by
  decide

/-- C3 amended: in boolean mode, whenever the found entry has no positional
successor (or the price lookup at the successor errs), generateLabels stops
at that date, truncates the dates to the number of labels accumulated so far
and returns the accumulated pair normally; a date that cannot be found in
the remainder of the series instead raises an uncaught error. -/
theorem generateLabels_truncates_on_missing_successor :
    (∀ {β : Type} (dates : List Int) (nextPrices : List β) (ticks : List Tick)
        (labels : List (List Bool)) (dates2 : List Int),
        generateLabels dates nextPrices ticks "boolean" =
          some (.bools labels, dates2) →
        dates2 = dates.take labels.length ∧ labels.length ≤ dates.length) ∧
    (∀ (ticks : List Tick) (i : Nat) (acc : List (List Bool)) (date : Int)
        (rest : List Int) (j : Nat),
        advanceCursor ticks date i = some j → ticks[j+1]? = none →
        genLabelsLoop ticks (date :: rest) i acc = some acc) := by
  constructor
  · intro β dates nextPrices ticks labels dates2 h
    rw [generateLabels, if_pos rfl] at h
    cases hloop : genLabelsLoop ticks dates 0 [] with
    | none => rw [hloop] at h; simp at h
    | some L =>
      rw [hloop, Option.map_some'] at h
      injection h with h
      have hL : L = labels := by
        have := congrArg Prod.fst h
        simpa using this
      subst hL
      obtain ⟨S, hLS, hlen, _⟩ := genLabelsLoop_spec ticks dates 0 [] L hloop
      simp only [List.nil_append] at hLS
      subst hLS
      exact ⟨(congrArg Prod.snd h).symm, hlen⟩
  · intro ticks i acc date rest j hadv hnone
    obtain ⟨curr, hcurr, _⟩ := advanceCursor_found ticks date i j hadv
    simp [genLabelsLoop, hadv, hcurr, hnone]

/-- Witness for the amended C3: the series [(0, 1), (5, 2)] has no successor
for the entry at date 5, so labeling [0, 5] stops there with one label and
the dates truncated to [0]. -/
theorem generateLabels_truncates_on_missing_successor_witness :
    (generateLabels [(0 : Int), 5] ([] : List ℚ) [⟨0, 1⟩, ⟨5, 2⟩] "boolean" =
        some (.bools [[true]], [0])) ∧
    ([(0 : Int)] = [(0 : Int), 5].take [[true]].length ∧
      [[true]].length ≤ [(0 : Int), 5].length) ∧
    (advanceCursor [⟨0, 1⟩, ⟨5, 2⟩] 5 0 = some 1) ∧
    (([⟨0, 1⟩, ⟨5, 2⟩] : List Tick)[1+1]? = none) ∧
    (genLabelsLoop [⟨0, 1⟩, ⟨5, 2⟩] [(5 : Int)] 0 [] = some []) :=
  ⟨by decide,
    generateLabels_truncates_on_missing_successor.1 [(0 : Int), 5] ([] : List ℚ)
      [⟨0, 1⟩, ⟨5, 2⟩] [[true]] [0] (by decide),
    by decide, by decide,
    generateLabels_truncates_on_missing_successor.2 [⟨0, 1⟩, ⟨5, 2⟩] 0 [] 5 []
      1 (by decide) (by decide)⟩

/-! ### Helper lemmas for model selection and assembly -/

theorem selectModel_eq_find_rev {α β : Type} (models : List (DatasetModel α β))
    (modelName : String) :
    selectModel models modelName =
      models.reverse.find? fun mod => mod.name == modelName := by
  suffices h : ∀ (l : List (DatasetModel α β)) (init : Option (DatasetModel α β)),
      l.foldl (fun acc mod => if mod.name = modelName then some mod else acc) init =
        (l.reverse.find? fun mod => mod.name == modelName).or init by
    rw [selectModel, h models none, Option.or_none]
  intro l
  induction l with
  | nil => intro init; simp
  | cons m rest ih =>
    intro init
    rw [List.foldl_cons, ih, List.reverse_cons, List.find?_append, Option.or_assoc]
    congr 1
    by_cases hm : m.name = modelName
    · simp [hm]
    · simp [hm]

theorem selectModel_mem {α β : Type} (models : List (DatasetModel α β))
    (modelName : String) (m : DatasetModel α β)
    (h : selectModel models modelName = some m) : m ∈ models := by
  rw [selectModel_eq_find_rev] at h
  exact List.mem_reverse.mp (List.mem_of_find?_eq_some h)

theorem assembleWithModel_lengths {α β : Type} (model : DatasetModel α β)
    (properties : List (List Tick)) (ticks : List Tick) (labelsType : String)
    (dataset : List α) (labels : LabelData β) (dates : List Int)
    (hg1 : (model.generate properties).1.length =
      (model.generate properties).2.1.length)
    (hg2 : (model.generate properties).2.2.length =
      (model.generate properties).2.1.length)
    (h : assembleWithModel model properties ticks labelsType =
      some (dataset, labels, dates)) :
    dataset.length = labels.card ∧ labels.card = dates.length := by
  rw [assembleWithModel] at h
  by_cases halign : alignOk properties
  · rw [if_pos halign] at h
    cases hlab : generateLabels (model.generate properties).2.1
        (model.generate properties).2.2 ticks labelsType with
    | none => rw [hlab] at h; simp at h
    | some ld =>
      rw [hlab, Option.map_some'] at h
      injection h with h
      obtain ⟨ld1, ld2⟩ := ld
      have hds : dataset = (model.generate properties).1.take ld1.card :=
        (congrArg (fun t => t.1) h).symm
      have hlb : labels = ld1 := (congrArg (fun t => t.2.1) h).symm
      have hdt : dates = ld2 := (congrArg (fun t => t.2.2) h).symm
      subst hds hlb hdt
      rcases generateLabels_cases (model.generate properties).2.1
          (model.generate properties).2.2 ticks labelsType _ _ hlab with
        ⟨L, hld, hd2, hle⟩ | ⟨_, hld, hd2⟩
      · subst hld hd2
        simp only [LabelData.card, List.length_take]
        omega
      · subst hld hd2
        simp only [LabelData.card, List.length_take]
        omega
  · rw [if_neg halign] at h
    exact absurd h (by simp)

/-! ### Claim C1 -/

/-- C1: whenever `generateDataset` returns a triple, the features, labels and
dates have equal cardinality — in both label modes and whether or not
labeling stopped early — provided the dataset model meets its contract of
producing same-length features, dates and auxiliary targets. -/
theorem generateDataset_lengths {α β : Type} (models : List (DatasetModel α β))
    (modelName : String) (propertyNames : List String) (labelsType : String)
    (store : String → List Tick) (start stop : Int)
    (dataset : List α) (labels : LabelData β) (dates : List Int)
    (hmodel : ∀ m ∈ models, ∀ ps,
      (m.generate ps).1.length = (m.generate ps).2.1.length ∧
      (m.generate ps).2.2.length = (m.generate ps).2.1.length)
    (h : generateDataset models modelName propertyNames labelsType store
      start stop = some (dataset, labels, dates)) :
    dataset.length = labels.card ∧ labels.card = dates.length := by
  rw [generateDataset] at h
  cases hsel : selectModel models modelName with
  | none => rw [hsel] at h; exact absurd h (by simp)
  | some model =>
    rw [hsel, Option.some_bind] at h
    have hmem := selectModel_mem models modelName model hsel
    exact assembleWithModel_lengths model _ _ labelsType dataset labels dates
      (hmodel model hmem _).1 (hmodel model hmem _).2 h

/-- Witness for C1: a one-model registry whose generate function returns two
features, two dates and two auxiliary targets, in full-label mode. -/
theorem generateDataset_lengths_witness :
    (∀ m ∈ [(⟨"matrix", fun _ => ([1, 2], [0, 1], [(10 : ℚ), 20])⟩ :
        DatasetModel Nat ℚ)], ∀ ps,
      (m.generate ps).1.length = (m.generate ps).2.1.length ∧
      (m.generate ps).2.2.length = (m.generate ps).2.1.length) ∧
    (generateDataset [(⟨"matrix", fun _ => ([1, 2], [0, 1], [(10 : ℚ), 20])⟩ :
        DatasetModel Nat ℚ)] "matrix" ["closePrice"] "full"
        (fun _ => [⟨0, 1⟩, ⟨1, 2⟩]) 0 2 =
      some ([1, 2], .full [(10 : ℚ), 20], [0, 1])) ∧
    ([1, 2].length = (LabelData.full (β := ℚ) [(10 : ℚ), 20]).card ∧
      (LabelData.full (β := ℚ) [(10 : ℚ), 20]).card = [(0 : Int), 1].length) :=
  ⟨fun m hm ps => by
      rw [List.mem_singleton] at hm
      subst hm
      exact ⟨rfl, rfl⟩,
    by decide,
    generateDataset_lengths
      [(⟨"matrix", fun _ => ([1, 2], [0, 1], [(10 : ℚ), 20])⟩ :
        DatasetModel Nat ℚ)] "matrix" ["closePrice"] "full"
      (fun _ => [⟨0, 1⟩, ⟨1, 2⟩]) 0 2 [1, 2] (.full [(10 : ℚ), 20]) [0, 1]
      (fun m hm ps => by
        rw [List.mem_singleton] at hm
        subst hm
        exact ⟨rfl, rfl⟩)
      (by decide)⟩

/-! ### Claim C8 -/

/-- C8 counterexample: with two registered models sharing the requested name,
the scan `for mod in models: if mod.name == modelName: model = mod` keeps
overwriting, so the SECOND of the two duplicates is selected, not the
first. -/
theorem selectModel_duplicate_picks_second :
    selectModel [dupModelA, dupModelB] "m" = some dupModelB ∧
      dupModelB ≠ dupModelA := by
  constructor
  · rfl
  · intro hcontra
    have := congrArg (fun m => m.generate []) hcontra
    simp [dupModelA, dupModelB] at this

/-- C8 amended: model selection follows scan-by-name semantics in which the
LAST registered model with the requested name wins (equivalently, the first
match over the reversed registry); when no model matches, the scan yields
nothing and `generateDataset` produces no dataset. -/
theorem selectModel_scan_semantics :
    (∀ {α β : Type} (models : List (DatasetModel α β)) (modelName : String),
        selectModel models modelName =
          models.reverse.find? fun mod => mod.name == modelName) ∧
    (∀ {α β : Type} (models : List (DatasetModel α β)) (modelName : String),
        selectModel models modelName = none ↔
          ∀ m ∈ models, m.name ≠ modelName) ∧
    (∀ {α β : Type} (models : List (DatasetModel α β)) (modelName : String)
        (propertyNames : List String) (labelsType : String)
        (store : String → List Tick) (start stop : Int),
        selectModel models modelName = none →
        generateDataset models modelName propertyNames labelsType store
          start stop = none) := by
  refine ⟨fun models modelName => selectModel_eq_find_rev models modelName,
    ?_, ?_⟩
  · intro α β models modelName
    rw [selectModel_eq_find_rev]
    rw [List.find?_eq_none]
    constructor
    · intro h m hm
      have := h m (List.mem_reverse.mpr hm)
      simpa using this
    · intro h m hm
      have := h m (List.mem_reverse.mp hm)
      simpa using this
  · intro α β models modelName propertyNames labelsType store start stop hsel
    rw [generateDataset, hsel, Option.none_bind]

/-- Witness for the amended C8: a registry with a duplicated name and an
empty registry. -/
theorem selectModel_scan_semantics_witness :
    (selectModel [dupModelA, dupModelB] "m" =
      [dupModelA, dupModelB].reverse.find? fun mod => mod.name == "m") ∧
    (selectModel ([] : List (DatasetModel Unit Unit)) "x" = none) ∧
    (generateDataset ([] : List (DatasetModel Unit Unit)) "x" [] "full"
      (fun _ => []) 0 0 = none) :=
  ⟨selectModel_scan_semantics.1 [dupModelA, dupModelB] "m",
    rfl,
    selectModel_scan_semantics.2.2 ([] : List (DatasetModel Unit Unit)) "x" []
      "full" (fun _ => []) 0 0 rfl⟩

/-! ### Helper lemmas for the unclipped label series (C9) -/

theorem findFrom_first (d : Int) :
    ∀ (ts : List Tick) (i : Nat) (t : Tick), ts[i]? = some t → t.date = d →
      (∀ k u, k < i → ts[k]? = some u → u.date ≠ d) →
      findFrom ts d = some i := by
  intro ts
  induction ts with
  | nil => intro i t ht _ _; simp at ht
  | cons a ts ih =>
    intro i t ht htd hbefore
    cases i with
    | zero =>
      rw [List.getElem?_cons_zero] at ht
      injection ht with ht
      subst ht
      rw [findFrom, if_pos htd]
    | succ i0 =>
      have hane : a.date ≠ d := hbefore 0 a (Nat.succ_pos i0) (by simp)
      rw [List.getElem?_cons_succ] at ht
      have hrest : ∀ k u, k < i0 → ts[k]? = some u → u.date ≠ d := by
        intro k u hk hku
        exact hbefore (k + 1) u (by omega) (by simpa using hku)
      rw [findFrom, if_neg hane, ih i0 t ht htd hrest]
      rfl

theorem advanceCursor_zero (ticks : List Tick) (d : Int) (i : Nat)
    (h : findFrom ticks d = some i) : advanceCursor ticks d 0 = some i := by
  rw [advanceCursor, List.drop_zero, h]
  simp

theorem generateLabels_single_date {β : Type} (nextPrices : List β)
    (series : List Tick) (d : Int) (i : Nat) (curr nxt : Tick)
    (hpair : series.Pairwise fun a b => a.date < b.date)
    (hi : series[i]? = some curr) (hcd : curr.date = d)
    (hn : series[i+1]? = some nxt) :
    generateLabels [d] nextPrices series "boolean" =
      some (.bools [[decide (curr.closePrice < nxt.closePrice)]], [d]) := by
  obtain ⟨hlt, hival⟩ := List.getElem?_eq_some_iff.mp hi
  have hbefore : ∀ k u, k < i → series[k]? = some u → u.date ≠ d := by
    intro k u hk hku
    obtain ⟨hklt, hkval⟩ := List.getElem?_eq_some_iff.mp hku
    have hlt2 := List.pairwise_iff_getElem.mp hpair k i hklt hlt hk
    rw [hkval, hival, hcd] at hlt2
    intro hud
    rw [hud] at hlt2
    exact lt_irrefl _ hlt2
  have hfind : findFrom series d = some i := findFrom_first d series i curr hi hcd hbefore
  have hadv : advanceCursor series d 0 = some i := advanceCursor_zero series d i hfind
  simp [generateLabels, genLabelsLoop, hadv, hi, hn]

/-! ### Claim C9 -/

/-- C9: the price series used for boolean labeling is loaded from the
clipped start with no end bound — `loadData(..., start, None, ...)` filters
by the start only — so the boolean label of an in-range date `d < e` is still
computed when its successor tick lies at or beyond the requested end `e`:
the label can depend on data outside the requested interval. -/
theorem labelSeries_no_end_clip :
    (∀ (ticks : List Tick) (start : Int),
        loadData ticks start none =
          ticks.filter fun t => decide (start ≤ t.date)) ∧
    (∀ {β : Type} (nextPrices : List β) (ticks : List Tick) (start e d : Int)
        (i : Nat) (curr nxt : Tick),
        (loadData ticks start none).Pairwise (fun a b => a.date < b.date) →
        (loadData ticks start none)[i]? = some curr → curr.date = d →
        (loadData ticks start none)[i+1]? = some nxt →
        d < e → e ≤ nxt.date →
        generateLabels [d] nextPrices (loadData ticks start none) "boolean" =
          some (.bools [[decide (curr.closePrice < nxt.closePrice)]], [d])) := by
  constructor
  · intro ticks start
    rw [loadData]
    apply List.filter_congr
    intro t _
    simp
  · intro β nextPrices ticks start e d i curr nxt hpair hi hcd hn _ _
    exact generateLabels_single_date nextPrices _ d i curr nxt hpair hi hcd hn

/-- Witness for C9: requested end 5, series ticks at dates 0 and 10; the
label of date 0 is computed from the successor at date 10 ≥ 5. -/
theorem labelSeries_no_end_clip_witness :
    (loadData [⟨0, 1⟩] 0 none =
      List.filter (fun t => decide ((0 : Int) ≤ t.date)) [⟨0, 1⟩]) ∧
    ((loadData [⟨0, 1⟩, ⟨10, 2⟩] 0 none).Pairwise
        (fun a b => a.date < b.date) ∧
      (loadData [⟨0, 1⟩, ⟨10, 2⟩] 0 none)[0]? = some ⟨0, 1⟩ ∧
      (⟨0, 1⟩ : Tick).date = 0 ∧
      (loadData [⟨0, 1⟩, ⟨10, 2⟩] 0 none)[0+1]? = some ⟨10, 2⟩ ∧
      ((0 : Int) < 5) ∧ ((5 : Int) ≤ (⟨10, 2⟩ : Tick).date) ∧
      generateLabels [(0 : Int)] ([] : List ℚ)
          (loadData [⟨0, 1⟩, ⟨10, 2⟩] 0 none) "boolean" =
        some (.bools [[decide ((⟨0, 1⟩ : Tick).closePrice <
          (⟨10, 2⟩ : Tick).closePrice)]], [0])) :=
  ⟨labelSeries_no_end_clip.1 [⟨0, 1⟩] 0,
    by decide, by decide, by decide, by decide, by decide, by decide,
    labelSeries_no_end_clip.2 ([] : List ℚ) [⟨0, 1⟩, ⟨10, 2⟩] 0 5 0 0
      ⟨0, 1⟩ ⟨10, 2⟩ (by decide) (by decide) (by decide) (by decide)
      (by decide) (by decide)⟩

/-! ### Helper lemmas for shuffling (C5) -/

theorem range_filterMap_getElem {α : Type} (L : List α) :
    (List.range L.length).filterMap (fun j => L[j]?) = L := by
  induction L with
  | nil => simp
  | cons a L ih =>
    rw [List.length_cons, List.range_succ_eq_map]
    rw [List.filterMap_cons_some
      (show (fun j => (a :: L)[j]?) 0 = some a from by simp)]
    rw [List.filterMap_map]
    have hcomp : ((fun j => (a :: L)[j]?) ∘ Nat.succ) = fun j => L[j]? := by
      funext j
      simp
    rw [hcomp, ih]

theorem zip_filterMap_getElem {α β : Type} (perm : List Nat) (A : List α)
    (B : List β) (h : ∀ j ∈ perm, j < A.length ∧ j < B.length) :
    (perm.filterMap fun j => A[j]?).zip (perm.filterMap fun j => B[j]?) =
      perm.filterMap fun j => (A.zip B)[j]? := by
  induction perm with
  | nil => simp
  | cons j rest ih =>
    obtain ⟨hA, hB⟩ := h j (by simp)
    have hz : j < (A.zip B).length := by rw [List.length_zip]; omega
    have hA2 := List.getElem?_eq_getElem hA
    have hB2 := List.getElem?_eq_getElem hB
    have hAB := List.getElem?_eq_getElem hz
    simp only [List.filterMap_cons, hA2, hB2, hAB]
    rw [List.zip_cons_cons, ih fun x hx => h x (by simp [hx])]
    rw [List.getElem_zip]

/-! ### Claim C5 -/

/-- C5: `randomizeDataset` applies one and the same index permutation to the
features, the labels and the dates — never three independent ones — so the
multiset of co-indexed (feature, label, date) triples is preserved and only
their order changes. -/
theorem randomizeDataset_one_permutation {α β γ : Type} (permutation : List Nat)
    (N : Nat) (dataset : List α) (labels : List β) (dates : List γ)
    (hperm : permutation.Perm (List.range N))
    (hd : dataset.length = N) (hl : labels.length = N) (ht : dates.length = N) :
    ((randomizeDataset permutation dataset labels dates).1.zip
      ((randomizeDataset permutation dataset labels dates).2.1.zip
        (randomizeDataset permutation dataset labels dates).2.2)).Perm
      (dataset.zip (labels.zip dates)) := by
  have hmem : ∀ j ∈ permutation, j < N := by
    intro j hj
    have := hperm.subset hj
    simpa using this
  simp only [randomizeDataset]
  rw [zip_filterMap_getElem permutation labels dates
    (fun j hj => ⟨by rw [hl]; exact hmem j hj, by rw [ht]; exact hmem j hj⟩)]
  rw [zip_filterMap_getElem permutation dataset (labels.zip dates)
    (fun j hj => ⟨by rw [hd]; exact hmem j hj,
      by rw [List.length_zip, hl, ht]; simpa using hmem j hj⟩)]
  refine (hperm.filterMap _).trans ?_
  have hT : (dataset.zip (labels.zip dates)).length = N := by
    rw [List.length_zip, List.length_zip, hd, hl, ht]
    simp
  rw [← hT, range_filterMap_getElem]

/-- Witness for C5 at the permutation [1, 0, 2] of three triples. -/
theorem randomizeDataset_one_permutation_witness :
    ([1, 0, 2].Perm (List.range 3)) ∧
    ([(10 : Nat), 20, 30].length = 3) ∧
    ([(4 : Nat), 5, 6].length = 3) ∧ ([(7 : Nat), 8, 9].length = 3) ∧
    ((randomizeDataset [1, 0, 2] [(10 : Nat), 20, 30] [(4 : Nat), 5, 6]
        [(7 : Nat), 8, 9]).1.zip
      ((randomizeDataset [1, 0, 2] [(10 : Nat), 20, 30] [(4 : Nat), 5, 6]
        [(7 : Nat), 8, 9]).2.1.zip
        (randomizeDataset [1, 0, 2] [(10 : Nat), 20, 30] [(4 : Nat), 5, 6]
          [(7 : Nat), 8, 9]).2.2)).Perm
      ([(10 : Nat), 20, 30].zip ([(4 : Nat), 5, 6].zip [(7 : Nat), 8, 9])) :=
  ⟨by decide, by decide, by decide, by decide,
    randomizeDataset_one_permutation [1, 0, 2] 3 [(10 : Nat), 20, 30]
      [(4 : Nat), 5, 6] [(7 : Nat), 8, 9] (by decide) (by decide) (by decide)
      (by decide)⟩

/-! ### Helper lemmas for the ratio split (C4) -/

theorem div_add_div_le (a b c : Nat) : a / c + b / c ≤ (a + b) / c := by
  rcases Nat.eq_zero_or_pos c with rfl | hc
  · simp
  · rw [Nat.le_div_iff_mul_le hc, Nat.add_mul]
    exact Nat.add_le_add (Nat.div_mul_le_self a c) (Nat.div_mul_le_self b c)

theorem splitSizes_sum_le (weights : List Nat) (n : Nat) :
    (splitSizes weights n).sum ≤ n := by
  rw [splitSizes]
  have h1 : ∀ (l : List Nat) (S : Nat),
      (l.map fun w => w * n / S).sum ≤ (l.map fun w => w * n).sum / S := by
    intro l S
    induction l with
    | nil => simp
    | cons w l ih =>
      simp only [List.map_cons, List.sum_cons]
      calc w * n / S + (l.map fun w => w * n / S).sum
          ≤ w * n / S + (l.map fun w => w * n).sum / S :=
            Nat.add_le_add_left ih _
        _ ≤ (w * n + (l.map fun w => w * n).sum) / S := div_add_div_le _ _ _
  refine le_trans (h1 weights weights.sum) ?_
  have h2 : (weights.map fun w => w * n).sum = weights.sum * n := by
    induction weights with
    | nil => simp
    | cons w l ih => simp [ih, Nat.add_mul]
  rw [h2]
  rcases Nat.eq_zero_or_pos weights.sum with h0 | hpos
  · rw [h0]
    simp
  · rw [Nat.mul_div_cancel_left n hpos]

theorem dropLast_sum_le (l : List Nat) : l.dropLast.sum ≤ l.sum := by
  induction l with
  | nil => simp
  | cons a l ih =>
    cases l with
    | nil => simp
    | cons b l2 =>
      rw [List.dropLast_cons₂, List.sum_cons, List.sum_cons]
      have := ih
      rw [List.sum_cons] at this
      omega

theorem take_drop_chunk {α : Type} (x : List α) (i s : Nat) :
    (x.drop i).take s ++ x.drop (i + s) = x.drop i := by
  have h := List.take_append_drop s (x.drop i)
  rwa [List.drop_drop] at h

theorem makeFragments_length {α β γ : Type} (d : List α) (l : List β)
    (t : List γ) : ∀ (sizes : List Nat) (index : Nat),
      (makeFragments d l t sizes index).length = sizes.length := by
  intro sizes
  induction sizes with
  | nil => intro index; rfl
  | cons s rest ih =>
    intro index
    cases rest with
    | nil => rfl
    | cons s2 rest2 =>
      rw [makeFragments]
      simp [ih]

theorem makeFragments_flatten {α β γ : Type} (d : List α) (l : List β)
    (t : List γ) : ∀ (sizes : List Nat) (index : Nat), sizes ≠ [] →
      ((makeFragments d l t sizes index).map fun f => f.1).flatten =
          d.drop index ∧
      ((makeFragments d l t sizes index).map fun f => f.2.1).flatten =
          l.drop index ∧
      ((makeFragments d l t sizes index).map fun f => f.2.2).flatten =
          t.drop index := by
  intro sizes
  induction sizes with
  | nil => intro index h; exact absurd rfl h
  | cons s rest ih =>
    intro index _
    cases rest with
    | nil => simp [makeFragments]
    | cons s2 rest2 =>
      obtain ⟨ih1, ih2, ih3⟩ := ih (index + s) (by simp)
      rw [makeFragments]
      refine ⟨?_, ?_, ?_⟩
      · simp only [List.map_cons, List.flatten_cons, ih1]
        exact take_drop_chunk d index s
      · simp only [List.map_cons, List.flatten_cons, ih2]
        exact take_drop_chunk l index s
      · simp only [List.map_cons, List.flatten_cons, ih3]
        exact take_drop_chunk t index s

theorem makeFragments_sizes {α β γ : Type} (d : List α) (l : List β)
    (t : List γ) : ∀ (sizes : List Nat) (index : Nat),
      index + sizes.dropLast.sum ≤ d.length →
      ∀ k, k + 1 < sizes.length →
        ((makeFragments d l t sizes index).map fun f => f.1.length)[k]? =
          sizes[k]? := by
  intro sizes
  induction sizes with
  | nil => intro index _ k hk; simp at hk
  | cons s rest ih =>
    intro index hsum k hk
    cases rest with
    | nil => simp at hk
    | cons s2 rest2 =>
      have hdl : (s :: s2 :: rest2).dropLast.sum =
          s + (s2 :: rest2).dropLast.sum := by
        rw [List.dropLast_cons₂, List.sum_cons]
      rw [makeFragments]
      simp only [List.map_cons]
      cases k with
      | zero =>
        simp only [List.getElem?_cons_zero]
        congr 1
        rw [List.length_take, List.length_drop]
        omega
      | succ k0 =>
        simp only [List.getElem?_cons_succ]
        have hsum2 : (index + s) + (s2 :: rest2).dropLast.sum ≤ d.length := by
          omega
        exact ih (index + s) hsum2 k0 (by simpa using hk)

/-! ### Claim C4 -/

/-- C4: for a ratio of at least two weights, the split produces one
contiguous, non-overlapping, in-order fragment per weight — their
concatenation is the original dataset — where fragment `k` (for `k` before
the last) has exactly `weight_k * N / sum(weights)` elements (integer
division) and the last fragment takes all that remains, the sizes summing to
`N`; a single weight yields the one unsplit dataset rather than a list of
fragments. -/
theorem runSplit_spec {α β γ : Type} (weights : List Nat) (dataset : List α)
    (labels : List β) (dates : List γ) (hpos : ∀ w ∈ weights, 0 < w) :
    (weights.length = 1 → runSplit weights dataset labels dates =
        SplitData.single dataset labels dates) ∧
    (2 ≤ weights.length → ∃ frags,
        runSplit weights dataset labels dates = SplitData.multi frags ∧
        frags.length = weights.length ∧
        (frags.map fun f => f.1).flatten = dataset ∧
        (frags.map fun f => f.2.1).flatten = labels ∧
        (frags.map fun f => f.2.2).flatten = dates ∧
        (∀ k, k + 1 < weights.length →
          (frags.map fun f => f.1.length)[k]? =
            (weights[k]?).map fun w => w * dataset.length / weights.sum) ∧
        (frags.map fun f => f.1.length).sum = dataset.length) := by
  constructor
  · intro h1
    rw [runSplit, if_pos h1]
  · intro h2
    have hne : ¬ weights.length = 1 := by omega
    have hwne : weights ≠ [] := by
      intro hc
      rw [hc] at h2
      simp at h2
    have hsne : splitSizes weights dataset.length ≠ [] := by
      rw [splitSizes]
      simpa using hwne
    have hslen : (splitSizes weights dataset.length).length = weights.length := by
      rw [splitSizes, List.length_map]
    have hsum0 : 0 + (splitSizes weights dataset.length).dropLast.sum ≤
        dataset.length := by
      have ha := splitSizes_sum_le weights dataset.length
      have hb := dropLast_sum_le (splitSizes weights dataset.length)
      omega
    obtain ⟨hf1, hf2, hf3⟩ :=
      makeFragments_flatten dataset labels dates
        (splitSizes weights dataset.length) 0 hsne
    rw [List.drop_zero] at hf1 hf2 hf3
    refine ⟨makeFragments dataset labels dates
        (splitSizes weights dataset.length) 0,
      by rw [runSplit, if_neg hne],
      by rw [makeFragments_length, hslen],
      hf1, hf2, hf3, ?_, ?_⟩
    · intro k hk
      have hmk := makeFragments_sizes dataset labels dates
        (splitSizes weights dataset.length) 0 hsum0 k (by omega)
      rw [hmk, splitSizes, List.getElem?_map]
    · have hlen := congrArg List.length hf1
      rw [List.length_flatten, List.map_map] at hlen
      exact hlen

/-- Witness for C4 at the ratio 1:2 over six elements: fragment sizes 2 and
4. -/
theorem runSplit_spec_witness :
    (∀ w ∈ [(1 : Nat), 2], 0 < w) ∧
    (([(1 : Nat), 2].length = 1 →
      runSplit [1, 2] [(0 : Nat), 1, 2, 3, 4, 5] [(0 : Nat), 1, 2, 3, 4, 5]
          [(0 : Nat), 1, 2, 3, 4, 5] =
        SplitData.single [(0 : Nat), 1, 2, 3, 4, 5] [(0 : Nat), 1, 2, 3, 4, 5]
          [(0 : Nat), 1, 2, 3, 4, 5]) ∧
    (2 ≤ [(1 : Nat), 2].length → ∃ frags,
        runSplit [1, 2] [(0 : Nat), 1, 2, 3, 4, 5] [(0 : Nat), 1, 2, 3, 4, 5]
            [(0 : Nat), 1, 2, 3, 4, 5] = SplitData.multi frags ∧
        frags.length = [(1 : Nat), 2].length ∧
        (frags.map fun f => f.1).flatten = [(0 : Nat), 1, 2, 3, 4, 5] ∧
        (frags.map fun f => f.2.1).flatten = [(0 : Nat), 1, 2, 3, 4, 5] ∧
        (frags.map fun f => f.2.2).flatten = [(0 : Nat), 1, 2, 3, 4, 5] ∧
        (∀ k, k + 1 < [(1 : Nat), 2].length →
          (frags.map fun f => f.1.length)[k]? =
            ([(1 : Nat), 2][k]?).map fun w =>
              w * [(0 : Nat), 1, 2, 3, 4, 5].length / [(1 : Nat), 2].sum) ∧
        (frags.map fun f => f.1.length).sum =
          [(0 : Nat), 1, 2, 3, 4, 5].length)) :=
  ⟨by decide,
    runSplit_spec [1, 2] [(0 : Nat), 1, 2, 3, 4, 5] [(0 : Nat), 1, 2, 3, 4, 5]
      [(0 : Nat), 1, 2, 3, 4, 5] (by decide)⟩

end BlockchainPredictor
